import Mathlib

/-!
# Verification of the nishiogi repository-exploration agent

Shallow embedding of the repository's Rust sources:

* `src/tree.rs`    — gitignore-aware directory tree walker
  (`generate_tree`, `generate_tree_with_patterns`, `find_repo_root`,
  `find_gitignore_patterns`, `parse_gitignore`);
* `src/show_file.rs` — single-file reader (`read_file_content`, `FileReadError`);
* `src/agent.rs`   — the plan/execute/answer/review session controller
  (`AgentContext`, `AgentStep`, `process_question`, `plan_execution`,
  `execute_commands`, `run_tree_command`, `run_show_file_command`,
  `create_answer`, `review_answer`).

The filesystem is modelled as a finite immutable tree of named nodes together
with a current working directory (needed because the code probes some paths
relative to the process CWD).  Machine I/O failures are modelled by a `broken`
node whose open/read fails; per-entry read races and permission errors are not
modelled (directory listings always succeed on nodes present in the model).
Rust panics are modelled as `Except.error` values carrying the panic message,
kept distinct from ordinary returned errors.  The language-model backend is an
opaque oracle `Oracle` mapping a message list to either a transport error or a
list of choice contents, exactly the surface the code consumes.

Notes on fidelity of the string primitives: Rust `str::lines` is modelled as
splitting on a newline (carriage returns are out of scope), `str::trim` by
`String.trim`, `to_lowercase` by `String.toLower`, and the byte-wise ordering
used by `sort_by_key(DirEntry::file_name)` by the lexicographic order on
strings (these agree on UTF-8 data).  The `.` produced for `?` in the compiled
regexes matches any character here; entry names containing newlines are out of
scope.  Logging (`println!`) is not modelled.
-/

namespace Nishiogi

/-- A node of the model filesystem: a readable file with contents, a `broken`
file whose `File::open`/read fails with an I/O error, or a directory with a
list of named children. -/
inductive FSNode where
  | file (content : String)
  | broken
  | dir (children : List (String × FSNode))

/-- A path, as Rust's `Path`: absolute (leading slash) or relative, with its
list of normal components. -/
structure MPath where
  abs : Bool
  comps : List String
deriving Repr, DecidableEq

/-- The model filesystem: the root directory tree plus the process working
directory (absolute components), against which relative paths resolve. -/
structure FS where
  root : FSNode
  cwd : List String

/-- First child of a directory listing with the given name. -/
def lookupChild (name : String) : List (String × FSNode) → Option FSNode
  | [] => none
  | (n, node) :: rest => if n = name then some node else lookupChild name rest

/-- Walk absolute components down from a node. -/
def lookupNode : FSNode → List String → Option FSNode
  | n, [] => some n
  | FSNode.dir cs, c :: rest =>
    match lookupChild c cs with
    | some child => lookupNode child rest
    | none => none
  | _, _ :: _ => none

/-- Resolve a path to absolute components (relative paths resolve against the
CWD, as in Rust). -/
def FS.resolve (fs : FS) (p : MPath) : List String :=
  if p.abs then p.comps else fs.cwd ++ p.comps

/-- Look a path up in the filesystem. -/
def FS.lookup (fs : FS) (p : MPath) : Option FSNode :=
  lookupNode fs.root (fs.resolve p)

/-- `Path::exists`. -/
def pathExists (fs : FS) (p : MPath) : Bool :=
  (fs.lookup p).isSome

/-- `Path::is_dir`. -/
def pathIsDir (fs : FS) (p : MPath) : Bool :=
  match fs.lookup p with
  | some (FSNode.dir _) => true
  | _ => false

/-- `Path::join` with one extra component. -/
def MPath.join (p : MPath) (c : String) : MPath :=
  ⟨p.abs, p.comps ++ [c]⟩

/-! ## String primitives

The Rust string operations the sources use (`split`, `trim`, `to_lowercase`,
`starts_with`, `strip_prefix`, `contains`, …) are modelled directly on the
character lists underlying `String`, by structural recursion. -/

/-- Split on a separator character (every separator the sources use — `/`,
`:`, the line split — is a single character).  Like Rust `split`, the result
always has one more piece than there are separators. -/
def splitOnCh (sep : Char) : List Char → List (List Char)
  | [] => [[]]
  | c :: rest =>
    if c = sep then [] :: splitOnCh sep rest
    else
      match splitOnCh sep rest with
      | [] => [[c]]
      | h :: t => (c :: h) :: t

/-- `str::split` / `str::lines` on a one-character separator. -/
def strSplitOn (s : String) (sep : Char) : List String :=
  (splitOnCh sep s.data).map (fun l => ⟨l⟩)

/-- `str::trim`. -/
def strTrim (s : String) : String :=
  ⟨((s.data.dropWhile Char.isWhitespace).reverse.dropWhile Char.isWhitespace).reverse⟩

/-- `str::to_lowercase`. -/
def strToLower (s : String) : String :=
  ⟨s.data.map Char.toLower⟩

/-- `str::starts_with`. -/
def strStartsWith (s pre : String) : Bool :=
  pre.data.isPrefixOf s.data

/-- `str::ends_with`. -/
def strEndsWith (s suf : String) : Bool :=
  suf.data.isSuffixOf s.data

/-- Drop the first `n` characters. -/
def strDrop (s : String) (n : Nat) : String :=
  ⟨s.data.drop n⟩

/-- Drop the last `n` characters. -/
def strDropRight (s : String) (n : Nat) : String :=
  ⟨s.data.take (s.data.length - n)⟩

/-- `join`/`intercalate` with a separator. -/
def strIntercalate (sep : String) : List String → String
  | [] => ""
  | [s] => s
  | s :: rest => s ++ sep ++ strIntercalate sep rest

/-- Substring test on character lists (Rust `str::contains`). -/
def isInfixCh (pat : List Char) : List Char → Bool
  | [] => pat.isEmpty
  | d :: ds => pat.isPrefixOf (d :: ds) || isInfixCh pat ds

/-- Rust `str::contains` for string needles. -/
def strContains (s pat : String) : Bool :=
  isInfixCh pat.data s.data

/-- `str::strip_prefix`. -/
def stripPrefixStr (pre s : String) : Option String :=
  if strStartsWith s pre then some (strDrop s pre.data.length) else none

/-- Concatenation of a list of strings (used to relate the walker to its
line-by-line view). -/
def concatStrs (l : List String) : String :=
  l.foldr (fun a b => a ++ b) ""

/-- `Path::new` on a command-supplied string: absolute iff it starts with a
slash; empty and `.` components are dropped (`..` is out of scope). -/
def parsePath (s : String) : MPath :=
  ⟨strStartsWith s "/", (strSplitOn s '/').filter (fun c => c ≠ "" && c ≠ ".")⟩

/-- Wellformedness of the model: every directory has pairwise distinct child
names (as a real filesystem does). -/
inductive WfNode : FSNode → Prop
  | file (c : String) : WfNode (FSNode.file c)
  | broken : WfNode FSNode.broken
  | dir (cs : List (String × FSNode)) (hn : (cs.map Prod.fst).Nodup)
      (hc : ∀ e ∈ cs, WfNode e.2) : WfNode (FSNode.dir cs)

/-! ## Pattern compilation (`parse_gitignore`, tree.rs lines 152-207)

A compiled pattern is the token list of the anchored regex `^…$` the code
builds: `*` becomes `.*` (`star`), `?` becomes `.` (`anyc`), every other
character is escaped to a literal.  Because all regex metacharacters other
than the two translations are escaped, compilation in `Regex::new` cannot
fail on these token lists, so the `Err` logging branch is dead in the model. -/

/-- One token of a compiled gitignore pattern. -/
inductive GTok where
  | star
  | anyc
  | lit (c : Char)
deriving Repr, DecidableEq

/-- A compiled pattern (the whole anchored regex). -/
abbrev GlobPat := List GTok

/-- Token translation of the pattern body (tree.rs lines 183-194). -/
def compileChars : List Char → GlobPat
  | [] => []
  | c :: rest =>
    (if c = '*' then GTok.star else if c = '?' then GTok.anyc else GTok.lit c)
      :: compileChars rest

/-- Matching a token list against a character list: the semantics of the
anchored regex `^…$` the code compiles (`.` and `.*` over the literals). -/
def globMatch : GlobPat → (List Char → Bool)
  | [] => fun s => s.isEmpty
  | GTok.lit c :: ts => fun s =>
    match s with
    | [] => false
    | d :: ds => c == d && globMatch ts ds
  | GTok.anyc :: ts => fun s =>
    match s with
    | [] => false
    | _ :: ds => globMatch ts ds
  | GTok.star :: ts => fun s => suffixAny (globMatch ts) s
where
  /-- `.*` tries every suffix of the remaining input. -/
  suffixAny (f : List Char → Bool) : List Char → Bool
    | [] => f []
    | d :: ds => f (d :: ds) || suffixAny f ds

/-- `Regex::is_match` of a compiled (anchored) pattern against a string. -/
def patMatch (g : GlobPat) (s : String) : Bool :=
  globMatch g s.data

/-- One line of `parse_gitignore`'s loop (tree.rs lines 158-203): trim, skip
blanks and comments, strip a leading `!` (negation is parsed but not
honoured), strip a trailing `/`, compile the rest. -/
def parseGitignoreLine (line : String) : Option GlobPat :=
  let trimmed := strTrim line
  if trimmed = "" || strStartsWith trimmed "#" then none
  else
    let p1 := if strStartsWith trimmed "!" then strDrop trimmed 1 else trimmed
    let p2 := if strEndsWith p1 "/" then strDropRight p1 1 else p1
    some (compileChars p2.data)

/-- `parse_gitignore` (tree.rs lines 153-207): open the file (an I/O failure —
a `broken` node, a directory, or a vanished file — propagates as an error),
then compile each surviving line in file order. -/
def parse_gitignore (fs : FS) (gitignore_path : MPath) : Except String (List GlobPat) :=
  match fs.lookup gitignore_path with
  | some (FSNode.file content) =>
    Except.ok ((strSplitOn content '\n').filterMap parseGitignoreLine)
  | _ => Except.error "failed to open or read the gitignore file"

/-! ## Repository root discovery (`find_repo_root`, tree.rs lines 117-131)

The Rust loop keeps a mutable `current` path, returns it as soon as it
contains a `.git` directory or a `.gitignore` entry, and gives up when
`PathBuf::pop` fails (no components left).  Each existence test resolves
`current` against the CWD when it is relative.  We recurse structurally on the
reversed component list: dropping the head of the reversed list is exactly
`pop`. -/

/-- The loop condition of `find_repo_root`:
`(git_dir.exists() && git_dir.is_dir()) || current.join(".gitignore").exists()`. -/
def hasRepoMarker (fs : FS) (p : MPath) : Bool :=
  pathIsDir fs (p.join ".git") || pathExists fs (p.join ".gitignore")

/-- The loop of `find_repo_root`, over the reversed component list. -/
def repoRootGo (fs : FS) (ab : Bool) : List String → Option (List String)
  | [] => if hasRepoMarker fs ⟨ab, []⟩ then some [] else none
  | c :: t =>
    if hasRepoMarker fs ⟨ab, (c :: t).reverse⟩ then some (c :: t).reverse
    else repoRootGo fs ab t

/-- `find_repo_root` (tree.rs lines 117-131). -/
def find_repo_root (fs : FS) (start_path : MPath) : Option MPath :=
  (repoRootGo fs start_path.abs start_path.comps.reverse).map (fun cs => ⟨start_path.abs, cs⟩)

/-- `PathBuf::default()`: the empty relative path. -/
def emptyPath : MPath := ⟨false, []⟩

/-- `find_gitignore_patterns` (tree.rs lines 134-150).  Note the source's
`find_repo_root(start_path).unwrap_or_default()`: when no repository root is
found the empty relative path is used, so the subsequent
`repo_root.join(".gitignore")` probes `.gitignore` relative to the process
CWD.  An I/O failure in `parse_gitignore` propagates (`?`). -/
def find_gitignore_patterns (fs : FS) (start_path : MPath) :
    Except String (List GlobPat) :=
  let repo_root := (find_repo_root fs start_path).getD emptyPath
  let root_gitignore := repo_root.join ".gitignore"
  if pathExists fs root_gitignore then
    parse_gitignore fs root_gitignore
  else
    Except.ok []

/-! ## The tree walker (`generate_tree_with_patterns`, tree.rs lines 54-114)

The Rust function reads the directory (panicking when that fails), filters the
entries through the ignore rules, sorts them by name, and emits one connector
line per entry, recursing into subdirectories with an extended prefix and a
decremented depth.  `walkChildren` is that function specialised to a readable
directory whose entries are already in hand (in the model a directory listing
always succeeds on a `dir` node); the read failure is only reachable at the
top call and lives in `generate_tree_with_patterns` below.  `renderSorted` is
the `for (i, entry)` loop; `i == len - 1` is rephrased as "the remaining list
is empty", which is equivalent for an index running over the list. -/

/-- `usize::MAX`, the sentinel in `depth.unwrap_or(usize::MAX)`. -/
def usizeMax : Nat := 18446744073709551615

/-- `entry_path.strip_prefix(path)` on component lists. -/
def stripPrefixL (pre l : List String) : Option (List String) :=
  if pre.isPrefixOf l then some (l.drop pre.length) else none

/-- Display of a relative path's components (`to_string_lossy`). -/
def compsToString (comps : List String) : String :=
  strIntercalate "/" comps

/-- The filter predicate of tree.rs lines 69-85: an entry is dropped when some
rule matches its bare name or its path relative to the directory currently
being listed (`entry_path.strip_prefix(path)`, falling back to the entry path
itself when stripping fails). -/
def entryIgnored (ignore : List GlobPat) (dirPath : List String) (file_name : String) : Bool :=
  let entry_path := dirPath ++ [file_name]
  let rel_path := (stripPrefixL dirPath entry_path).getD entry_path
  let rel_path_str := compsToString rel_path
  ignore.any (fun r => patMatch r file_name || patMatch r rel_path_str)

/-- Comparison key of `entries.sort_by_key(DirEntry::file_name)`. -/
def entryLe (a b : String × FSNode) : Prop := a.1 ≤ b.1

instance : DecidableRel entryLe := fun a b => inferInstanceAs (Decidable (a.1 ≤ b.1))

instance : IsTotal (String × FSNode) entryLe := ⟨fun a b => le_total a.1 b.1⟩

instance : IsTrans (String × FSNode) entryLe := ⟨fun _ _ _ h1 h2 => le_trans h1 h2⟩

/-- The entries of tree.rs lines 67-86: surviving the ignore filter. -/
def keptEntries (ignore : List GlobPat) (dirPath : List String)
    (cs : List (String × FSNode)) : List (String × FSNode) :=
  cs.filter (fun e => !entryIgnored ignore dirPath e.1)

/-- `entries.sort_by_key(DirEntry::file_name)` (a stable sort by name). -/
def sortEntries (l : List (String × FSNode)) : List (String × FSNode) :=
  List.insertionSort entryLe l

theorem sizeOf_filter_le {α} [SizeOf α] (p : α → Bool) (l : List α) :
    sizeOf (l.filter p) ≤ sizeOf l := by
  induction l with
  | nil => simp [List.filter]
  | cons a t ih =>
    rw [List.filter_cons]
    split <;> simp only [List.cons.sizeOf_spec] <;> omega

theorem sizeOf_sortEntries (l : List (String × FSNode)) :
    sizeOf (sortEntries l) = sizeOf l :=
  (List.perm_insertionSort entryLe l).sizeOf_eq_sizeOf

theorem sizeOf_keptEntries_le (ignore : List GlobPat) (dirPath : List String)
    (cs : List (String × FSNode)) : sizeOf (keptEntries ignore dirPath cs) ≤ sizeOf cs :=
  sizeOf_filter_le _ cs

mutual

/-- Body of `generate_tree_with_patterns` after a successful `read_dir`
(tree.rs lines 60-113), on the listed children `cs` of the directory at
absolute components `dirPath`. -/
def walkChildren (ignore : List GlobPat) (dirPath : List String) (pfx : String)
    (depth : Option Nat) (cs : List (String × FSNode)) : String :=
  if depth = some 0 then ""
  else renderSorted ignore dirPath pfx depth (sortEntries (keptEntries ignore dirPath cs))
termination_by 2 * sizeOf cs + 1
decreasing_by
  have h1 := sizeOf_sortEntries (keptEntries ignore dirPath cs)
  have h2 := sizeOf_keptEntries_le ignore dirPath cs
  omega

/-- The `for (i, entry) in entries.into_iter().enumerate()` loop of tree.rs
lines 90-112 over the filtered, sorted entries. -/
def renderSorted (ignore : List GlobPat) (dirPath : List String) (pfx : String)
    (depth : Option Nat) : List (String × FSNode) → String
  | [] => ""
  | (file_name, FSNode.file _c) :: rest =>
    let connector := if rest.isEmpty then "└── " else "├── "
    (pfx ++ connector ++ file_name ++ "\n")
      ++ renderSorted ignore dirPath pfx depth rest
  | (file_name, FSNode.broken) :: rest =>
    let connector := if rest.isEmpty then "└── " else "├── "
    (pfx ++ connector ++ file_name ++ "\n")
      ++ renderSorted ignore dirPath pfx depth rest
  | (file_name, FSNode.dir subcs) :: rest =>
    let is_last := rest.isEmpty
    let connector := if is_last then "└── " else "├── "
    let new_pfx := pfx ++ (if is_last then "    " else "│   ")
    let sub :=
      if depth.getD usizeMax > 0 then
        walkChildren ignore (dirPath ++ [file_name]) new_pfx (depth.map (fun d => d - 1)) subcs
      else ""
    (pfx ++ connector ++ file_name ++ "\n")
      ++ sub
      ++ renderSorted ignore dirPath pfx depth rest
termination_by l => 2 * sizeOf l
decreasing_by
  all_goals simp only [List.cons.sizeOf_spec, Prod.mk.sizeOf_spec, FSNode.dir.sizeOf_spec]
  all_goals omega

end

/-! A line-structured view of the same walk: `walkLines` emits the very same
lines `walkChildren` pushes (each with its trailing newline), as a list.  It
is proved below to agree with `walkChildren` under `String.join`; claims about
individual output lines are stated on this view. -/

mutual

/-- The lines emitted by `walkChildren`. -/
def walkLines (ignore : List GlobPat) (dirPath : List String) (pfx : String)
    (depth : Option Nat) (cs : List (String × FSNode)) : List String :=
  if depth = some 0 then []
  else renderSortedLines ignore dirPath pfx depth (sortEntries (keptEntries ignore dirPath cs))
termination_by 2 * sizeOf cs + 1
decreasing_by
  have h1 := sizeOf_sortEntries (keptEntries ignore dirPath cs)
  have h2 := sizeOf_keptEntries_le ignore dirPath cs
  omega

/-- The lines emitted by `renderSorted`. -/
def renderSortedLines (ignore : List GlobPat) (dirPath : List String) (pfx : String)
    (depth : Option Nat) : List (String × FSNode) → List String
  | [] => []
  | (file_name, FSNode.file _c) :: rest =>
    let connector := if rest.isEmpty then "└── " else "├── "
    (pfx ++ connector ++ file_name ++ "\n")
      :: renderSortedLines ignore dirPath pfx depth rest
  | (file_name, FSNode.broken) :: rest =>
    let connector := if rest.isEmpty then "└── " else "├── "
    (pfx ++ connector ++ file_name ++ "\n")
      :: renderSortedLines ignore dirPath pfx depth rest
  | (file_name, FSNode.dir subcs) :: rest =>
    let is_last := rest.isEmpty
    let connector := if is_last then "└── " else "├── "
    let new_pfx := pfx ++ (if is_last then "    " else "│   ")
    let sub :=
      if depth.getD usizeMax > 0 then
        walkLines ignore (dirPath ++ [file_name]) new_pfx (depth.map (fun d => d - 1)) subcs
      else []
    (pfx ++ connector ++ file_name ++ "\n")
      :: (sub ++ renderSortedLines ignore dirPath pfx depth rest)
termination_by l => 2 * sizeOf l
decreasing_by
  all_goals simp only [List.cons.sizeOf_spec, Prod.mk.sizeOf_spec, FSNode.dir.sizeOf_spec]
  all_goals omega

end

/-- The expected line shape of a depth-limited listing: one connector line
per entry, by name, with nothing nested (used to state the `Some(1)` depth
property). -/
def flatLines (pfx : String) : List (String × FSNode) → List String
  | [] => []
  | e :: rest =>
    (pfx ++ (if rest.isEmpty then "└── " else "├── ") ++ e.1 ++ "\n") :: flatLines pfx rest

/-- `generate_tree_with_patterns` (tree.rs lines 54-114) including its failure
mode: a `Some(0)` depth short-circuits to an empty render before any I/O, and
then `fs::read_dir(path).expect("Failed to read directory")` panics — modelled
as an `Except.error` carrying the panic message — whenever `path` is not a
readable directory. -/
def generate_tree_with_patterns (fs : FS) (path : MPath) (pfx : String)
    (ignore : List GlobPat) (depth : Option Nat) : Except String String :=
  if depth = some 0 then Except.ok ""
  else
    match fs.lookup path with
    | some (FSNode.dir cs) => Except.ok (walkChildren ignore (fs.resolve path) pfx depth cs)
    | _ => Except.error "Failed to read directory"

/-- `generate_tree` (tree.rs lines 38-51): when no ignore set is supplied the
gitignore patterns are loaded, and a loading failure is silently replaced by
the empty set (`find_gitignore_patterns(path).unwrap_or_default()`). -/
def generate_tree (fs : FS) (path : MPath) (pfx : String)
    (ignore : Option (List GlobPat)) (depth : Option Nat) : Except String String :=
  let patterns :=
    match ignore with
    | some ps => ps
    | none => (find_gitignore_patterns fs path).toOption.getD []
  generate_tree_with_patterns fs path pfx patterns depth

/-! ## The file reader (`show_file.rs`) -/

/-- `FileReadError` (show_file.rs lines 15-22).  The source's `Io` variant
carries a `std::io::Error`; it is modelled with a message string (and renamed
`ioFailure` for this development). -/
inductive FileReadError where
  | NotFound
  | IsDirectory
  | ioFailure (msg : String)
deriving Repr, DecidableEq

/-- `read_file_content` (show_file.rs lines 57-65): a missing path is
`NotFound`, a directory is `IsDirectory`, and any remaining read failure (a
`broken` node) is an I/O error. -/
def read_file_content (fs : FS) (path : MPath) : Except FileReadError String :=
  if !pathExists fs path then Except.error FileReadError.NotFound
  else if pathIsDir fs path then Except.error FileReadError.IsDirectory
  else
    match fs.lookup path with
    | some (FSNode.file content) => Except.ok content
    | _ => Except.error (FileReadError.ioFailure "failed to read the file")

/-! ## The session controller (`agent.rs`) -/

/-- The execution-error taxonomy of the specification (spec.md §3,
`PlanExecutionError`): `PathNotFound`, `PathIsDirectory`, `UnknownCommand`,
`Io` (the last renamed `ioFailure` here). -/
inductive PlanExecutionError where
  | PathNotFound (path : String)
  | PathIsDirectory (path : String)
  | UnknownCommand (text : String)
  | ioFailure (cause : String)
deriving Repr, DecidableEq

/-- Modelled from the spec: the conversion applied by
`run_show_file_command`'s `Err(e) => Err(e.into())` (agent.rs lines 468-474).
No `impl From<FileReadError> for AgentError` appears under src/, so the
conversion itself is missing code; the spec (§4.4) says the three
`FileReadError` outcomes are mapped one-to-one onto `PathNotFound`,
`PathIsDirectory`, `Io`. -/
def fileErrToExec (path : String) : FileReadError → PlanExecutionError
  | FileReadError.NotFound => PlanExecutionError.PathNotFound path
  | FileReadError.IsDirectory => PlanExecutionError.PathIsDirectory path
  | FileReadError.ioFailure m => PlanExecutionError.ioFailure m

/-- How a session run can abort.  `panicked` models a Rust panic (process
abort, from the tree walker's `expect`); the remaining variants model the
returned `AgentError` values: `copilotFailure` for `CopilotError`,
`commandFailure` for `CommandError` (the unknown-command message),
`execFailure` for the typed execution error a failed `show_file` converts
into, and `otherFailure` for `Other`. -/
inductive SessionAbort where
  | panicked (msg : String)
  | copilotFailure (msg : String)
  | commandFailure (msg : String)
  | execFailure (e : PlanExecutionError)
  | otherFailure (msg : String)
deriving Repr, DecidableEq

/-- One chat message (`Message { role, content }`). -/
structure Message where
  role : String
  content : String
deriving Repr, DecidableEq

/-- The language-model capability: `chat_completion(messages, model)` returns
either a transport error (`CopilotError`, as a message) or the contents of
the response's choices.  The code only ever reads the first choice. -/
structure Oracle where
  chat : List Message → Except String (List String)

/-- `AgentStep` (agent.rs lines 291-306). -/
inductive AgentStep where
  | UnderstandQuestion
  | PlanExecution
  | ExecuteCommands
  | CreateAnswer
  | ReviewAnswer
  | Done
deriving Repr, DecidableEq

/-- `AgentContext` (agent.rs lines 274-288).  Note: no iteration counter
exists in the source. -/
structure AgentContext where
  question : String
  plan : List String
  command_results : List (String × String)
  current_answer : Option String
  review_result : Option String
  current_step : AgentStep
deriving Repr, DecidableEq

/-- `AgentContext::default()` followed by storing the question (agent.rs
lines 328-329). -/
def AgentContext.initial (q : String) : AgentContext :=
  { question := q
    plan := []
    command_results := []
    current_answer := none
    review_result := none
    current_step := AgentStep.UnderstandQuestion }

/-- Messages of `understand_question` (agent.rs lines 366-376). -/
def understandMessages (q : String) : List Message :=
  [⟨"system", "あなたはコードリポジトリを解析するエージェントです。ユーザーの質問を理解し、その意図を明確にしてください。"⟩,
   ⟨"user", "以下の質問の意図を分析してください: " ++ q⟩]

/-- The system prompt of `plan_execution` (agent.rs line 399). -/
def planSystemPrompt : String :=
  "あなたはコードリポジトリを解析するエージェントです。使用可能なコマンドは \x27tree <path>\x27 と \x27show_file <filepath>\x27 のみです。質問に回答するために必要なコマンドを順番に「コマンド: 」形式でリストアップしてください。"

/-- Messages of `plan_execution` (agent.rs lines 388-409): a prior review, if
any, is carried forward as additional context. -/
def planMessages (ctx : AgentContext) : List Message :=
  let previous_context :=
    match ctx.review_result with
    | some review => "前回の回答に対するレビュー結果: " ++ review ++ "\n\n"
    | none => ""
  [⟨"system", planSystemPrompt⟩,
   ⟨"user", previous_context ++ "以下の質問に回答するための計画を立ててください: " ++ ctx.question⟩]

/-- Plan extraction from the first choice's content (agent.rs lines 415-432):
keep the lines mentioning a command marker, take the text after the first
colon (re-joining any later colon-separated parts), trim; when nothing is
extracted, the whole trimmed response becomes the single planned command. -/
def extractPlan (content : String) : List String :=
  let ls := strSplitOn content '\n'
  let cmds :=
    (ls.filter (fun l => strContains l "コマンド:" || strContains l "command:")).map
      (fun l =>
        let parts := strSplitOn l ':'
        if parts.length > 1 then strTrim (strIntercalate ":" (parts.drop 1))
        else strTrim l)
  if cmds.isEmpty then [strTrim content] else cmds

/-- `run_tree_command` (agent.rs lines 462-465): `generate_tree(path, "",
None, None)` — gitignore rules are loaded (no explicit set), depth is
unlimited; a panic of the walker aborts the process. -/
def run_tree_command (fs : FS) (path : String) : Except SessionAbort String :=
  match generate_tree fs (parsePath path) "" none none with
  | Except.ok s => Except.ok s
  | Except.error msg => Except.error (SessionAbort.panicked msg)

/-- `run_show_file_command` (agent.rs lines 468-474). -/
def run_show_file_command (fs : FS) (path : String) : Except SessionAbort String :=
  match read_file_content fs (parsePath path) with
  | Except.ok content => Except.ok content
  | Except.error e => Except.error (SessionAbort.execFailure (fileErrToExec path e))

/-- One iteration of `execute_commands`' loop (agent.rs lines 443-452):
dispatch on the literal command prefixes, otherwise fail with the
unknown-command error. -/
def runCommand (fs : FS) (command : String) : Except SessionAbort String :=
  if strStartsWith command "tree " then
    run_tree_command fs ((stripPrefixStr "tree " command).getD ".")
  else if strStartsWith command "show_file " then
    run_show_file_command fs ((stripPrefixStr "show_file " command).getD "")
  else
    Except.error (SessionAbort.commandFailure ("Unknown command: " ++ command))

/-- The loop of `execute_commands` over the plan, short-circuiting on the
first failure and accumulating `(command, output)` pairs in plan order. -/
def runPlan (fs : FS) : List String → Except SessionAbort (List (String × String))
  | [] => Except.ok []
  | command :: rest =>
    match runCommand fs command with
    | Except.error e => Except.error e
    | Except.ok out =>
      match runPlan fs rest with
      | Except.error e => Except.error e
      | Except.ok tail => Except.ok ((command, out) :: tail)

/-- `execute_commands` (agent.rs lines 439-459): the accumulated
`command_results` are cleared first, so the resulting context holds exactly
the pairs produced from the current plan. -/
def execute_commands (fs : FS) (ctx : AgentContext) : Except SessionAbort AgentContext :=
  match runPlan fs ctx.plan with
  | Except.error e => Except.error e
  | Except.ok results => Except.ok { ctx with command_results := results }

/-- The concatenated results text of `create_answer` (agent.rs lines
478-481). -/
def commandResultsText (results : List (String × String)) : String :=
  results.foldl
    (fun acc cr => acc ++ "## コマンド: " ++ cr.1 ++ "\n\n```\n" ++ cr.2 ++ "\n```\n\n") ""

/-- Messages of `create_answer` (agent.rs lines 483-496). -/
def answerMessages (ctx : AgentContext) : List Message :=
  [⟨"system", "あなたはコードリポジトリを解析するエージェントです。実行したコマンドの結果に基づいて、ユーザーの質問に回答してください。"⟩,
   ⟨"user", "質問: " ++ ctx.question ++ "\n\n実行したコマンドの結果:\n\n"
      ++ commandResultsText ctx.command_results ++ "\n\n上記情報に基づいて質問に回答してください。"⟩]

/-- The system prompt of `review_answer` (agent.rs line 519). -/
def reviewSystemPrompt : String :=
  "あなたはコードリポジトリを解析するエージェントです。作成した回答が質問に対して適切か評価してください。"

/-- Messages of `review_answer` (agent.rs lines 516-529). -/
def reviewMessages (q answer : String) : List Message :=
  [⟨"system", reviewSystemPrompt⟩,
   ⟨"user", "質問: " ++ q ++ "\n\n回答: " ++ answer
      ++ "\n\nこの回答は質問に対して適切かつ十分ですか？問題点があれば指摘し、さらなる情報収集が必要なら「不十分」と結論づけてください。適切な場合は「適切」と結論づけてください。"⟩]

/-- The pass/fail heuristic of `review_answer` (agent.rs lines 538-540). -/
def reviewPassed (review : String) : Bool :=
  strContains (strToLower review) "適切"
    && !(strContains (strToLower review) "不十分")
    && !(strContains (strToLower review) "不適切")

/-- One turn of `process_question`'s `loop { match self.context.current_step
{ … } }` (agent.rs lines 331-362): either the session continues with an
updated context (`Sum.inl`), or `Done` returns the final answer (`Sum.inr`),
or a step's error aborts the session. -/
def processStep (o : Oracle) (fs : FS) (ctx : AgentContext) :
    Except SessionAbort (AgentContext ⊕ String) :=
  match ctx.current_step with
  | AgentStep.UnderstandQuestion =>
    -- understand_question: the response is only logged; a transport error aborts.
    match o.chat (understandMessages ctx.question) with
    | Except.error e => Except.error (SessionAbort.copilotFailure e)
    | Except.ok _ =>
      Except.ok (Sum.inl { ctx with current_step := AgentStep.PlanExecution })
  | AgentStep.PlanExecution =>
    match o.chat (planMessages ctx) with
    | Except.error e => Except.error (SessionAbort.copilotFailure e)
    | Except.ok choices =>
      match choices.head? with
      | none =>
        -- no choice: the plan is left unchanged
        Except.ok (Sum.inl { ctx with current_step := AgentStep.ExecuteCommands })
      | some content =>
        Except.ok (Sum.inl { ctx with
          plan := extractPlan content
          current_step := AgentStep.ExecuteCommands })
  | AgentStep.ExecuteCommands =>
    match execute_commands fs ctx with
    | Except.error e => Except.error e
    | Except.ok ctx2 =>
      Except.ok (Sum.inl { ctx2 with current_step := AgentStep.CreateAnswer })
  | AgentStep.CreateAnswer =>
    match o.chat (answerMessages ctx) with
    | Except.error e => Except.error (SessionAbort.copilotFailure e)
    | Except.ok choices =>
      match choices.head? with
      | none => Except.error (SessionAbort.otherFailure "Failed to get answer response")
      | some content =>
        Except.ok (Sum.inl { ctx with
          current_answer := some content
          current_step := AgentStep.ReviewAnswer })
  | AgentStep.ReviewAnswer =>
    match ctx.current_answer with
    | none => Except.error (SessionAbort.otherFailure "No answer to review")
    | some answer =>
      match o.chat (reviewMessages ctx.question answer) with
      | Except.error e => Except.error (SessionAbort.copilotFailure e)
      | Except.ok choices =>
        match choices.head? with
        | none => Except.error (SessionAbort.otherFailure "Failed to get review response")
        | some review =>
          if reviewPassed review then
            Except.ok (Sum.inl { ctx with
              review_result := some review
              current_step := AgentStep.Done })
          else
            Except.ok (Sum.inl { ctx with
              review_result := some review
              current_step := AgentStep.PlanExecution })
  | AgentStep.Done =>
    Except.ok (Sum.inr (ctx.current_answer.getD ""))

/-- `process_question`'s loop, observed for `n` turns: `Sum.inl` after `n`
turns means the loop is still running; a `Sum.inr` or an error is the value
`process_question` returns. -/
def runLoop (o : Oracle) (fs : FS) : Nat → AgentContext → Except SessionAbort (AgentContext ⊕ String)
  | 0, ctx => Except.ok (Sum.inl ctx)
  | Nat.succ n, ctx =>
    match processStep o fs ctx with
    | Except.ok (Sum.inl ctx2) => runLoop o fs n ctx2
    | r => r

/-- The observed loop state is "still iterating". -/
def stillRunning : Except SessionAbort (AgentContext ⊕ String) → Bool
  | Except.ok (Sum.inl _) => true
  | _ => false

/-- The observed loop state is "returned a final answer". -/
def isFinalAnswer : Except SessionAbort (AgentContext ⊕ String) → Bool
  | Except.ok (Sum.inr _) => true
  | _ => false

/-! ## Concrete instances used by witnesses and counterexamples -/

/-- A small filesystem: a readable file, an empty directory, a broken file,
and a one-byte file; no repository markers anywhere, CWD at the root. -/
def fsShow : FS :=
  ⟨FSNode.dir
    [("a.txt", FSNode.file "A"), ("d", FSNode.dir []),
     ("b", FSNode.broken), ("f", FSNode.file "x")], []⟩

/-- An oracle whose every response has the single choice `"show_file f"`:
the extracted plan is that one command, the synthesized answer is that text,
and the review of it classifies as a fail (it contains no affirmative
token). -/
def oracleConst : Oracle := ⟨fun _ => Except.ok ["show_file f"]⟩

/-- A repository root (`.git` present) whose `.gitignore` cannot be read,
with a walkable subdirectory `w`. -/
def fsBrokenGitignore : FS :=
  ⟨FSNode.dir
    [(".git", FSNode.dir []), (".gitignore", FSNode.broken),
     ("w", FSNode.dir [("a", FSNode.file "")])], []⟩

/-- No repository markers at all, and nothing at the CWD either. -/
def fsNoMarkers : FS :=
  ⟨FSNode.dir [("work", FSNode.dir [("start", FSNode.dir [])])], ["home"]⟩

/-- No ancestor of `/work/start` carries a repository marker, but the process
CWD (`/home`) contains a `.gitignore` with the single pattern `a`. -/
def fsCwdGitignore : FS :=
  ⟨FSNode.dir
    [("home", FSNode.dir [(".gitignore", FSNode.file "a\n")]),
     ("work", FSNode.dir [("start", FSNode.dir [])])], ["home"]⟩

/-- The compiled form of the gitignore pattern `src/a.log`. -/
def relPat : GlobPat := compileChars "src/a.log".data

/-- A walk root holding `src/a.log`: the walk-root-relative path of the file
`a.log` is `src/a.log`. -/
def csRel : List (String × FSNode) :=
  [("src", FSNode.dir [("a.log", FSNode.file "")])]

/-- Two files listed in anti-alphabetical order. -/
def csTwo : List (String × FSNode) :=
  [("b", FSNode.file ""), ("a", FSNode.file "")]

/-- A context poised at the Executing step with a one-command plan and stale
results from a previous iteration. -/
def ctxStale : AgentContext :=
  { question := "q"
    plan := ["show_file a.txt"]
    command_results := [("old-cmd", "old-output")]
    current_answer := none
    review_result := none
    current_step := AgentStep.ExecuteCommands }

/-- A context poised at the Executing step whose plan's second command will
fail (`missing` does not exist in `fsShow`). -/
def ctxFailingPlan : AgentContext :=
  { question := "q"
    plan := ["show_file a.txt", "show_file missing", "show_file a.txt"]
    command_results := []
    current_answer := none
    review_result := none
    current_step := AgentStep.ExecuteCommands }

/-! ## Theorems -/

/-- C3: executing `ShowFile` maps the file reader's three failure outcomes
one-to-one onto the execution-error variants: a missing path yields
`PathNotFound`, a directory path yields `PathIsDirectory`, and a failing read
yields the I/O variant; the conversion is injective (one-to-one). -/
theorem C3_show_file_error_mapping (fs : FS) (path : String) :
    ((fs.lookup (parsePath path)).isNone →
      run_show_file_command fs path
        = Except.error (SessionAbort.execFailure (PlanExecutionError.PathNotFound path)))
    ∧ (pathIsDir fs (parsePath path) = true →
      run_show_file_command fs path
        = Except.error (SessionAbort.execFailure (PlanExecutionError.PathIsDirectory path)))
    ∧ (fs.lookup (parsePath path) = some FSNode.broken →
      run_show_file_command fs path
        = Except.error (SessionAbort.execFailure
            (PlanExecutionError.ioFailure "failed to read the file")))
    ∧ (∀ e1 e2 : FileReadError, fileErrToExec path e1 = fileErrToExec path e2 → e1 = e2) := by
  refine ⟨?_, ?_, ?_, ?_⟩
  · intro h
    have hex : pathExists fs (parsePath path) = false := by
      unfold pathExists
      simp only [Option.isNone] at h
      rcases hl : fs.lookup (parsePath path) with _ | n
      · simp
      · rw [hl] at h; simp at h
    simp [run_show_file_command, read_file_content, hex, fileErrToExec]
  · intro h
    have hex : pathExists fs (parsePath path) = true := by
      unfold pathIsDir at h
      unfold pathExists
      rcases hl : fs.lookup (parsePath path) with _ | n
      · rw [hl] at h; simp at h
      · simp
    simp [run_show_file_command, read_file_content, hex, h, fileErrToExec]
  · intro h
    simp [run_show_file_command, read_file_content, pathExists, pathIsDir, h, fileErrToExec]
  · intro e1 e2 h
    cases e1 <;> cases e2 <;> simp_all [fileErrToExec]

/-- Witness for C3 at a concrete filesystem: a missing path and a directory
path. -/
theorem C3_show_file_error_mapping_witness :
    ((fsShow.lookup (parsePath "missing")).isNone = true
      ∧ run_show_file_command fsShow "missing"
          = Except.error (SessionAbort.execFailure (PlanExecutionError.PathNotFound "missing")))
    ∧ (pathIsDir fsShow (parsePath "d") = true
      ∧ run_show_file_command fsShow "d"
          = Except.error (SessionAbort.execFailure (PlanExecutionError.PathIsDirectory "d"))) :=
  ⟨⟨by decide, (C3_show_file_error_mapping fsShow "missing").1 (by decide)⟩,
   ⟨by decide, (C3_show_file_error_mapping fsShow "d").2.1 (by decide)⟩⟩

/-- `runPlan` on a plan whose first failing command errors with `e` returns
`Except.error e`, whatever commands follow the failing one. -/
theorem runPlan_first_error (fs : FS) (e : SessionAbort) :
    ∀ pre : List String, (∀ c ∈ pre, (runCommand fs c).isOk = true) →
      ∀ command : String, runCommand fs command = Except.error e →
        ∀ post : List String, runPlan fs (pre ++ command :: post) = Except.error e := by
  intro pre
  induction pre with
  | nil =>
    intro _ command hcmd post
    rw [List.nil_append]
    rw [runPlan, hcmd]
  | cons c rest ih =>
    intro hpre command hcmd post
    have hc := hpre c (List.mem_cons_self c rest)
    cases hok : runCommand fs c with
    | error er => rw [hok] at hc; simp [Except.isOk, Except.toBool] at hc
    | ok out =>
      have hr := ih (fun x hx => hpre x (List.mem_cons_of_mem c hx)) command hcmd post
      rw [List.cons_append]
      rw [runPlan, hok, hr]

/-- C4: planned commands run strictly in plan order and the session aborts on
the first failing command: with every command before `command` succeeding and
`command` failing with `e`, the Executing step returns exactly `e` (so no
answer is produced), and the outcome is independent of everything planned
after the failing command (those commands are never executed). -/
theorem C4_short_circuit (o : Oracle) (fs : FS) (ctx : AgentContext)
    (pre : List String) (command : String) (post : List String) (e : SessionAbort)
    (hplan : ctx.plan = pre ++ command :: post)
    (hstep : ctx.current_step = AgentStep.ExecuteCommands)
    (hpre : ∀ c ∈ pre, (runCommand fs c).isOk = true)
    (hcmd : runCommand fs command = Except.error e) :
    processStep o fs ctx = Except.error e
    ∧ (∀ post2, runPlan fs (pre ++ command :: post2) = Except.error e)
    ∧ (∀ k : Nat, runLoop o fs (k + 1) ctx = Except.error e) := by
  have key := runPlan_first_error fs e pre hpre command hcmd
  have hps : processStep o fs ctx = Except.error e := by
    simp [processStep, hstep, execute_commands, hplan, key post]
  refine ⟨hps, key, ?_⟩
  intro k
  rw [runLoop, hps]

/-- Witness for C4: a three-command plan whose second command fails; the
session aborts with that command's `PathNotFound`. -/
theorem C4_short_circuit_witness :
    (∀ c ∈ ["show_file a.txt"], (runCommand fsShow c).isOk = true)
    ∧ runCommand fsShow "show_file missing"
        = Except.error (SessionAbort.execFailure (PlanExecutionError.PathNotFound "missing"))
    ∧ processStep oracleConst fsShow ctxFailingPlan
        = Except.error (SessionAbort.execFailure (PlanExecutionError.PathNotFound "missing")) :=
  ⟨by decide, by rfl,
   (C4_short_circuit oracleConst fsShow ctxFailingPlan
      ["show_file a.txt"] "show_file missing" ["show_file a.txt"]
      (SessionAbort.execFailure (PlanExecutionError.PathNotFound "missing"))
      (by rfl) (by rfl) (by decide) (by rfl)).1⟩

/-- `runPlan` success describes each result pair: its label is the planned
command and its output is that command's successful result. -/
theorem runPlan_forall2 (fs : FS) :
    ∀ (plan : List String) (results : List (String × String)),
      runPlan fs plan = Except.ok results →
      List.Forall₂ (fun c pr => pr.1 = c ∧ runCommand fs c = Except.ok pr.2) plan results := by
  intro plan
  induction plan with
  | nil =>
    intro results h
    simp [runPlan] at h
    subst h
    exact List.Forall₂.nil
  | cons c rest ih =>
    intro results h
    cases hok : runCommand fs c with
    | error er => simp [runPlan, hok] at h
    | ok out =>
      cases hrest : runPlan fs rest with
      | error er => simp [runPlan, hok, hrest] at h
      | ok tail =>
        simp [runPlan, hok, hrest] at h
        subst h
        exact List.Forall₂.cons ⟨rfl, hok⟩ (ih tail hrest)

/-- C10: the Executing step starts from cleared results — its outcome is the
same whatever `command_results` the context carried in — and on success the
resulting context holds exactly one `(command, output)` pair per planned
command, in plan order. -/
theorem C10_results_reset (fs : FS) (ctx : AgentContext) :
    (∀ old, execute_commands fs { ctx with command_results := old }
      = execute_commands fs ctx)
    ∧ (∀ ctx2, execute_commands fs ctx = Except.ok ctx2 →
      List.Forall₂ (fun c pr => pr.1 = c ∧ runCommand fs c = Except.ok pr.2)
        ctx.plan ctx2.command_results) := by
  constructor
  · intro old
    simp [execute_commands]
  · intro ctx2 h
    unfold execute_commands at h
    cases hp : runPlan fs ctx.plan with
    | error er => rw [hp] at h; simp at h
    | ok results =>
      rw [hp] at h
      simp at h
      have h2 := runPlan_forall2 fs ctx.plan results hp
      rw [← h]
      simpa using h2

/-- Witness for C10: with stale results carried in, the Executing step
produces exactly the current plan's single pair. -/
theorem C10_results_reset_witness :
    execute_commands fsShow { ctxStale with command_results := [("x", "y")] }
      = execute_commands fsShow ctxStale
    ∧ List.Forall₂ (fun c pr => pr.1 = c ∧ runCommand fsShow c = Except.ok pr.2)
        ctxStale.plan
        ({ ctxStale with command_results := [("show_file a.txt", "A")] } : AgentContext).command_results :=
  ⟨(C10_results_reset fsShow ctxStale).1 [("x", "y")],
   (C10_results_reset fsShow ctxStale).2
     { ctxStale with command_results := [("show_file a.txt", "A")] } (by rfl)⟩

/-- The loop state holds a context stopped at the given step. -/
def atStep (st : AgentStep) : Except SessionAbort (AgentContext ⊕ String) → Bool
  | Except.ok (Sum.inl c) => c.current_step == st
  | _ => false

/-- When every review response classifies as a fail, one loop turn from a
non-`Done` state neither returns an answer nor moves the session to `Done`. -/
theorem processStep_never_done (o : Oracle) (fs : FS) (ctx : AgentContext)
    (hrev : ∀ q a choices review, o.chat (reviewMessages q a) = Except.ok choices →
      choices.head? = some review → reviewPassed review = false)
    (hnd : ctx.current_step ≠ AgentStep.Done) :
    isFinalAnswer (processStep o fs ctx) = false
    ∧ ∀ ctx2, processStep o fs ctx = Except.ok (Sum.inl ctx2) →
        ctx2.current_step ≠ AgentStep.Done := by
  obtain ⟨q, plan, res, ans, rev, st⟩ := ctx
  cases st with
  | Done => exact absurd rfl hnd
  | UnderstandQuestion =>
    simp only [processStep]
    cases hc : o.chat (understandMessages q) with
    | error e => exact ⟨rfl, by intro ctx2 h; simp at h⟩
    | ok cs =>
      refine ⟨rfl, ?_⟩
      intro ctx2 h
      simp only [Except.ok.injEq, Sum.inl.injEq] at h
      rw [← h]
      simp
  | PlanExecution =>
    simp only [processStep]
    cases hc : o.chat (planMessages ⟨q, plan, res, ans, rev, AgentStep.PlanExecution⟩) with
    | error e => exact ⟨rfl, by intro ctx2 h; simp at h⟩
    | ok cs =>
      cases hh : cs.head? with
      | none =>
        simp only [hh]
        refine ⟨rfl, ?_⟩
        intro ctx2 h
        simp only [Except.ok.injEq, Sum.inl.injEq] at h
        rw [← h]; simp
      | some content =>
        simp only [hh]
        refine ⟨rfl, ?_⟩
        intro ctx2 h
        simp only [Except.ok.injEq, Sum.inl.injEq] at h
        rw [← h]; simp
  | ExecuteCommands =>
    simp only [processStep]
    cases he : execute_commands fs ⟨q, plan, res, ans, rev, AgentStep.ExecuteCommands⟩ with
    | error e => exact ⟨rfl, by intro ctx2 h; simp at h⟩
    | ok ctx3 =>
      refine ⟨rfl, ?_⟩
      intro ctx2 h
      simp only [Except.ok.injEq, Sum.inl.injEq] at h
      rw [← h]; simp
  | CreateAnswer =>
    simp only [processStep]
    cases hc : o.chat (answerMessages ⟨q, plan, res, ans, rev, AgentStep.CreateAnswer⟩) with
    | error e => exact ⟨rfl, by intro ctx2 h; simp at h⟩
    | ok cs =>
      cases hh : cs.head? with
      | none =>
        simp only [hh]
        exact ⟨rfl, by intro ctx2 h; simp at h⟩
      | some content =>
        simp only [hh]
        refine ⟨rfl, ?_⟩
        intro ctx2 h
        simp only [Except.ok.injEq, Sum.inl.injEq] at h
        rw [← h]; simp
  | ReviewAnswer =>
    cases ans with
    | none =>
      refine ⟨rfl, ?_⟩
      intro ctx2 h
      rw [show processStep o fs ⟨q, plan, res, none, rev, AgentStep.ReviewAnswer⟩
          = Except.error (SessionAbort.otherFailure "No answer to review") from rfl] at h
      exact Except.noConfusion h
    | some answer =>
      rw [show processStep o fs ⟨q, plan, res, some answer, rev, AgentStep.ReviewAnswer⟩
          = (match o.chat (reviewMessages q answer) with
             | Except.error e => Except.error (SessionAbort.copilotFailure e)
             | Except.ok choices =>
               match choices.head? with
               | none => Except.error (SessionAbort.otherFailure "Failed to get review response")
               | some review =>
                 if reviewPassed review then
                   Except.ok (Sum.inl ⟨q, plan, res, some answer, some review, AgentStep.Done⟩)
                 else
                   Except.ok (Sum.inl
                     ⟨q, plan, res, some answer, some review, AgentStep.PlanExecution⟩)) from rfl]
      cases hc : o.chat (reviewMessages q answer) with
      | error e => exact ⟨rfl, by intro ctx2 h; simp at h⟩
      | ok cs =>
        cases hh : cs.head? with
        | none =>
          simp only [hh]
          exact ⟨rfl, by intro ctx2 h; simp at h⟩
        | some review =>
          have hfail : reviewPassed review = false := hrev q answer cs review hc hh
          simp only [hh, hfail, Bool.false_eq_true, if_false]
          refine ⟨rfl, ?_⟩
          intro ctx2 h
          simp only [Except.ok.injEq, Sum.inl.injEq] at h
          rw [← h]; simp

/-- With an always-failing review classification, the loop never produces a
final answer, from any not-yet-finished state, however many turns it runs. -/
theorem runLoop_no_answer (o : Oracle) (fs : FS)
    (hrev : ∀ q a choices review, o.chat (reviewMessages q a) = Except.ok choices →
      choices.head? = some review → reviewPassed review = false) :
    ∀ (n : Nat) (ctx : AgentContext), ctx.current_step ≠ AgentStep.Done →
      isFinalAnswer (runLoop o fs n ctx) = false := by
  intro n
  induction n with
  | zero => intro ctx _; simp [runLoop, isFinalAnswer]
  | succ n ih =>
    intro ctx hnd
    have h := processStep_never_done o fs ctx hrev hnd
    rw [runLoop]
    cases hps : processStep o fs ctx with
    | error e => simp [isFinalAnswer]
    | ok v =>
      cases v with
      | inl ctx2 => exact ih ctx2 (h.2 ctx2 hps)
      | inr s => rw [hps] at h; simp [isFinalAnswer] at h

/-- C1 (amended): the control loop has no iteration counter and no configured
maximum; a session whose review step always yields a negative verdict never
terminates with an answer — each failed review sends the session back to
Planning, for every number of loop turns — instead of stopping after three
cycles with an annotated answer. -/
theorem C1_no_iteration_bound (o : Oracle) (fs : FS) (q : String)
    (hrev : ∀ qq a choices review, o.chat (reviewMessages qq a) = Except.ok choices →
      choices.head? = some review → reviewPassed review = false)
    (n : Nat) :
    isFinalAnswer (runLoop o fs n (AgentContext.initial q)) = false :=
  runLoop_no_answer o fs hrev n (AgentContext.initial q) (by simp [AgentContext.initial])

/-- Witness for the amended C1: the constant oracle always produces the
review text `"show_file f"`, which classifies as a fail; after 17 turns the
session still has not returned. -/
theorem C1_no_iteration_bound_witness :
    (∀ qq a choices review, oracleConst.chat (reviewMessages qq a) = Except.ok choices →
      choices.head? = some review → reviewPassed review = false)
    ∧ isFinalAnswer (runLoop oracleConst fsShow 17 (AgentContext.initial "q")) = false :=
  ⟨fun _ _ choices review h1 h2 => by
      simp only [oracleConst, Except.ok.injEq] at h1
      rw [← h1] at h2
      simp only [List.head?] at h2
      injection h2 with h3
      rw [← h3]
      decide,
   C1_no_iteration_bound oracleConst fsShow "q"
     (fun _ _ choices review h1 h2 => by
      simp only [oracleConst, Except.ok.injEq] at h1
      rw [← h1] at h2
      simp only [List.head?] at h2
      injection h2 with h3
      rw [← h3]
      decide) 17⟩

/-- C1 counterexample: a concrete session whose review always classifies as a
fail.  One cycle is four turns after the initial understanding turn, so after
13 turns the loop has completed exactly three plan/execute/answer/review
cycles — where the claim says the session has terminated and returned the
annotated answer — yet the session is back at Planning, and it is still
running after 41 turns (ten cycles). -/
theorem C1_counterexample :
    reviewPassed "show_file f" = false
    ∧ atStep AgentStep.PlanExecution
        (runLoop oracleConst fsShow 13 (AgentContext.initial "q")) = true
    ∧ stillRunning (runLoop oracleConst fsShow 41 (AgentContext.initial "q")) = true :=
  ⟨by decide, by decide, by decide⟩

/-- C2 counterexample: executing `ListDirectory` on a path that does not
exist does not fail with a returned `PathNotFound` value — the tree walker's
`expect` panics. -/
theorem C2_counterexample :
    run_tree_command fsShow "missing"
      = Except.error (SessionAbort.panicked "Failed to read directory") := by
  rfl

/-- C2 (amended): executing `ListDirectory` panics (aborts the process, the
`Failed to read directory` `expect`) on any path that is not a readable
directory — in particular a nonexistent one — rather than returning a
`PathNotFound` error value; on an existing directory it invokes the gitignore
loader (no explicit rule set is supplied) and then the tree walker with
unbounded depth, returning the full render. -/
theorem C2_list_directory_behaviour (fs : FS) (path : String) :
    ((∀ cs, fs.lookup (parsePath path) ≠ some (FSNode.dir cs)) →
      run_tree_command fs path
        = Except.error (SessionAbort.panicked "Failed to read directory"))
    ∧ (∀ cs, fs.lookup (parsePath path) = some (FSNode.dir cs) →
      run_tree_command fs path
        = Except.ok (walkChildren
            ((find_gitignore_patterns fs (parsePath path)).toOption.getD [])
            (fs.resolve (parsePath path)) "" none cs)) := by
  constructor
  · intro h
    unfold run_tree_command generate_tree generate_tree_with_patterns
    rcases hl : fs.lookup (parsePath path) with _ | n
    · simp [hl]
    · cases n with
      | dir cs => exact absurd hl (h cs)
      | file c => simp [hl]
      | broken => simp [hl]
  · intro cs h
    unfold run_tree_command generate_tree generate_tree_with_patterns
    simp [h]

/-- Witness for the amended C2: on the existing directory `d` the command
succeeds with the loader-filtered unbounded-depth render. -/
theorem C2_list_directory_behaviour_witness :
    fsShow.lookup (parsePath "d") = some (FSNode.dir [])
    ∧ run_tree_command fsShow "d"
        = Except.ok (walkChildren
            ((find_gitignore_patterns fsShow (parsePath "d")).toOption.getD [])
            (fsShow.resolve (parsePath "d")) "" none []) :=
  ⟨by rfl, (C2_list_directory_behaviour fsShow "d").2 [] (by rfl)⟩

/-- C6 counterexample: reading the repository root's `.gitignore` fails with
an I/O error, yet the tree command succeeds with the unfiltered render — the
error is silently replaced by the empty rule set, not propagated. -/
theorem C6_counterexample :
    find_gitignore_patterns fsBrokenGitignore (parsePath "w")
      = Except.error "failed to open or read the gitignore file"
    ∧ run_tree_command fsBrokenGitignore "w" = Except.ok "└── a\n" := by
  constructor
  · rfl
  · show Except.ok (walkChildren [] ["w"] "" none [("a", FSNode.file "")])
      = Except.ok "└── a\n"
    rw [walkChildren]
    rw [if_neg (by decide : ¬ (none : Option Nat) = some 0)]
    rw [show sortEntries (keptEntries [] ["w"] [("a", FSNode.file "")])
        = [("a", FSNode.file "")] from rfl]
    rw [renderSorted, renderSorted]
    rfl

/-- C6 (amended): an I/O failure reading the repository root's `.gitignore`
is silently swallowed by `generate_tree` (`unwrap_or_default`): the walk
proceeds with the empty rule set, and on a readable directory the command
still succeeds — the I/O error never reaches the tree command's caller. -/
theorem C6_gitignore_io_error_swallowed (fs : FS) (path : MPath) (msg : String)
    (h : find_gitignore_patterns fs path = Except.error msg) :
    generate_tree fs path "" none none = generate_tree_with_patterns fs path "" [] none
    ∧ ∀ cs, fs.lookup path = some (FSNode.dir cs) →
        generate_tree fs path "" none none
          = Except.ok (walkChildren [] (fs.resolve path) "" none cs) := by
  constructor
  · unfold generate_tree
    rw [h]
    rfl
  · intro cs hcs
    unfold generate_tree generate_tree_with_patterns
    rw [h]
    simp [hcs, Except.toOption]

/-- Witness for the amended C6 at the concrete broken-`.gitignore`
repository. -/
theorem C6_gitignore_io_error_swallowed_witness :
    find_gitignore_patterns fsBrokenGitignore (parsePath "w")
      = Except.error "failed to open or read the gitignore file"
    ∧ generate_tree fsBrokenGitignore (parsePath "w") "" none none
        = Except.ok (walkChildren []
            (fsBrokenGitignore.resolve (parsePath "w")) "" none [("a", FSNode.file "")]) :=
  ⟨by rfl,
   (C6_gitignore_io_error_swallowed fsBrokenGitignore (parsePath "w")
      "failed to open or read the gitignore file" (by rfl)).2
     [("a", FSNode.file "")] (by rfl)⟩

/-- The loop of `find_repo_root` finds nothing when no inspected ancestor
carries a repository marker. -/
theorem repoRootGo_none (fs : FS) (ab : Bool) :
    ∀ rev : List String,
      (∀ t : List String, t <:+ rev → hasRepoMarker fs ⟨ab, t.reverse⟩ = false) →
      repoRootGo fs ab rev = none := by
  intro rev
  induction rev with
  | nil =>
    intro h
    have hm := h [] (List.suffix_refl [])
    rw [List.reverse_nil] at hm
    simp [repoRootGo, hm]
  | cons c t ih =>
    intro h
    have hm := h (c :: t) (List.suffix_refl _)
    simp only [repoRootGo, hm, Bool.false_eq_true, if_false]
    exact ih (fun s hs => h s (hs.trans (List.suffix_cons c t)))

/-- `find_repo_root` returns `None` when no ancestor of the start path
(itself included, down to the root) carries a `.git` directory or a
`.gitignore` entry. -/
theorem find_repo_root_none (fs : FS) (p : MPath)
    (h : ∀ k : Nat, hasRepoMarker fs ⟨p.abs, p.comps.take k⟩ = false) :
    find_repo_root fs p = none := by
  unfold find_repo_root
  rw [repoRootGo_none fs p.abs p.comps.reverse ?_]
  · rfl
  · intro t ht
    have hpre : t.reverse <+: p.comps := by
      rw [show t = t.reverse.reverse from (List.reverse_reverse t).symm] at ht
      exact List.reverse_suffix.mp ht
    have htake := List.prefix_iff_eq_take.mp hpre
    have hk := h t.reverse.length
    rw [← htake] at hk
    exact hk

/-- C7 counterexample: no ancestor of `/work/start` (itself, `/work`, or the
filesystem root) contains `.git` or `.gitignore`, yet the loader returns a
non-empty rule set: with no repository root found, the defaulted empty root
path makes it read `.gitignore` relative to the process CWD (`/home`). -/
theorem C7_counterexample :
    hasRepoMarker fsCwdGitignore ⟨true, []⟩ = false
    ∧ hasRepoMarker fsCwdGitignore ⟨true, ["work"]⟩ = false
    ∧ hasRepoMarker fsCwdGitignore ⟨true, ["work", "start"]⟩ = false
    ∧ find_gitignore_patterns fsCwdGitignore ⟨true, ["work", "start"]⟩
        = Except.ok [[GTok.lit 'a']]
    ∧ [[GTok.lit 'a']] ≠ ([] : List GlobPat) :=
  ⟨by decide, by decide, by decide, by rfl, by decide⟩

/-- C7 (amended): when no ancestor of the start path carries a repository
marker **and** the process CWD holds no `.gitignore`, the loader returns the
empty rule set (fail open).  The extra CWD condition is forced by the
source's `unwrap_or_default()` on the missing repository root. -/
theorem C7_loader_empty_rule_set (fs : FS) (p : MPath)
    (hanc : ∀ k : Nat, hasRepoMarker fs ⟨p.abs, p.comps.take k⟩ = false)
    (hcwd : lookupNode fs.root (fs.cwd ++ [".gitignore"]) = none) :
    find_gitignore_patterns fs p = Except.ok [] := by
  unfold find_gitignore_patterns
  rw [find_repo_root_none fs p hanc]
  simp [emptyPath, MPath.join, pathExists, FS.lookup, FS.resolve, hcwd]

/-- Witness for the amended C7: marker-free ancestry and a clean CWD give the
empty rule set. -/
theorem C7_loader_empty_rule_set_witness :
    (∀ k : Nat,
      hasRepoMarker fsNoMarkers ⟨true, ((["work", "start"] : List String).take k)⟩ = false)
    ∧ find_gitignore_patterns fsNoMarkers ⟨true, ["work", "start"]⟩ = Except.ok [] :=
  ⟨fun k => by
    rcases k with _ | (_ | k) <;> simp only [List.take, List.take_nil] <;> decide,
   C7_loader_empty_rule_set fsNoMarkers ⟨true, ["work", "start"]⟩
     (fun k => by
       rcases k with _ | (_ | k) <;> simp only [List.take, List.take_nil] <;> decide)
     (by rfl)⟩

/-! ### String-concatenation helpers -/

theorem strAppend_empty (s : String) : s ++ "" = s := by
  cases s with
  | mk d => show String.mk (d ++ []) = String.mk d; rw [List.append_nil]

theorem strEmpty_append (s : String) : "" ++ s = s := by
  cases s with
  | mk d => show String.mk ([] ++ d) = String.mk d; rw [List.nil_append]

theorem concatStrs_cons (x : String) (l : List String) :
    concatStrs (x :: l) = x ++ concatStrs l := rfl

theorem concatStrs_append (a b : List String) :
    concatStrs (a ++ b) = concatStrs a ++ concatStrs b := by
  induction a with
  | nil => rw [List.nil_append]; exact (strEmpty_append _).symm
  | cons x t ih =>
    rw [List.cons_append, concatStrs_cons, concatStrs_cons, ih, String.append_assoc]

theorem isPrefixOf_append (l₁ l₂ : List String) : l₁.isPrefixOf (l₁ ++ l₂) = true := by
  induction l₁ with
  | nil => simp [List.isPrefixOf]
  | cons a t ih => simp [List.isPrefixOf, ih]

/-- C5 counterexample: the compiled rule `src/a.log` matches, in full, the
walk-root-relative path of the entry `a.log` under `src`, yet the entry is
rendered — exclusion does not consult the path relative to the walk root. -/
theorem C5_counterexample :
    patMatch relPat "src/a.log" = true
    ∧ walkChildren [relPat] [] "" none csRel = "└── src\n    └── a.log\n" := by
  refine ⟨by decide, ?_⟩
  have hin : walkChildren [relPat] ["src"] ("" ++ "    ") none [("a.log", FSNode.file "")]
      = "    └── a.log\n" := by
    rw [walkChildren, if_neg (by decide : ¬ (none : Option Nat) = some 0)]
    rw [show sortEntries (keptEntries [relPat] ["src"] [("a.log", FSNode.file "")])
        = [("a.log", FSNode.file "")] from rfl]
    rw [renderSorted, renderSorted]
    rfl
  rw [walkChildren, if_neg (by decide : ¬ (none : Option Nat) = some 0)]
  rw [show sortEntries (keptEntries [relPat] [] csRel)
      = [("src", FSNode.dir [("a.log", FSNode.file "")])] from rfl]
  rw [renderSorted, renderSorted]
  simp only [List.isEmpty, List.nil_append, if_true]
  rw [if_pos (by decide : (none : Option Nat).getD usizeMax > 0)]
  rw [show ((none : Option Nat).map (fun d => d - 1)) = none from rfl]
  rw [hin]
  rfl

/-- C5 (amended): an entry is excluded iff some compiled rule matches, in
full, its bare name or its path relative to the directory being listed (its
immediate parent) — and that relative path is exactly the bare name, so the
whole filter reduces to an anchored match of the bare name.  A rule matching
only the entry's path relative to the walk root does not exclude it. -/
theorem C5_ignore_matches_bare_name (ignore : List GlobPat) (dirPath : List String)
    (file_name : String) :
    entryIgnored ignore dirPath file_name = ignore.any (fun r => patMatch r file_name) := by
  have key : stripPrefixL dirPath (dirPath ++ [file_name]) = some [file_name] := by
    unfold stripPrefixL
    rw [if_pos (isPrefixOf_append dirPath [file_name])]
    rw [List.drop_left]
  show (ignore.any fun r =>
      patMatch r file_name
        || patMatch r (compsToString
            ((stripPrefixL dirPath (dirPath ++ [file_name])).getD (dirPath ++ [file_name])))) =
    ignore.any fun r => patMatch r file_name
  rw [key, Option.getD_some]
  rw [show compsToString [file_name] = file_name from rfl]
  simp only [Bool.or_self]

/-- A zero depth renders nothing (the caller has already printed this node's
name). -/
theorem walkChildren_depth_zero (ignore : List GlobPat) (dirPath : List String)
    (pfx : String) (cs : List (String × FSNode)) :
    walkChildren ignore dirPath pfx (some 0) cs = ""
    ∧ walkLines ignore dirPath pfx (some 0) cs = [] := by
  constructor
  · rw [walkChildren, if_pos rfl]
  · rw [walkLines, if_pos rfl]

/-- At depth `Some(1)` the entry loop emits exactly one connector line per
entry and recursion contributes nothing. -/
theorem renderSorted_depth_one (ignore : List GlobPat) (dirPath : List String) (pfx : String) :
    ∀ l : List (String × FSNode),
      renderSorted ignore dirPath pfx (some 1) l = concatStrs (flatLines pfx l)
      ∧ renderSortedLines ignore dirPath pfx (some 1) l = flatLines pfx l := by
  intro l
  induction l with
  | nil =>
    constructor
    · rw [renderSorted]; rfl
    · rw [renderSortedLines]; rfl
  | cons e rest ih =>
    obtain ⟨name, node⟩ := e
    cases node with
    | file c =>
      constructor
      · rw [renderSorted, ih.1]; rfl
      · rw [renderSortedLines, ih.2]; rfl
    | broken =>
      constructor
      · rw [renderSorted, ih.1]; rfl
      · rw [renderSortedLines, ih.2]; rfl
    | dir subcs =>
      have hz : walkChildren ignore (dirPath ++ [name])
          (pfx ++ (if rest.isEmpty then "    " else "│   "))
          ((some 1 : Option Nat).map (fun d => d - 1)) subcs = "" := by
        rw [show ((some 1 : Option Nat).map (fun d => d - 1)) = some 0 from rfl]
        exact (walkChildren_depth_zero _ _ _ _).1
      have hzl : walkLines ignore (dirPath ++ [name])
          (pfx ++ (if rest.isEmpty then "    " else "│   "))
          ((some 1 : Option Nat).map (fun d => d - 1)) subcs = [] := by
        rw [show ((some 1 : Option Nat).map (fun d => d - 1)) = some 0 from rfl]
        exact (walkChildren_depth_zero _ _ _ _).2
      constructor
      · rw [renderSorted]
        rw [if_pos (by decide : ((some 1 : Option Nat)).getD usizeMax > 0)]
        rw [hz, ih.1, strAppend_empty]
        rfl
      · rw [renderSortedLines]
        rw [if_pos (by decide : ((some 1 : Option Nat)).getD usizeMax > 0)]
        rw [hzl, ih.2, List.nil_append]
        rfl

/-- C9: at a depth limit of 1 the walker renders exactly one line per
non-ignored direct child — its connector and name — with no nested content,
whatever the child's kind (the recursion into directories hits depth 0 and
contributes nothing). -/
theorem C9_depth_one_flat (ignore : List GlobPat) (dirPath : List String) (pfx : String)
    (cs : List (String × FSNode)) :
    walkChildren ignore dirPath pfx (some 1) cs
      = concatStrs (flatLines pfx (sortEntries (keptEntries ignore dirPath cs)))
    ∧ walkLines ignore dirPath pfx (some 1) cs
      = flatLines pfx (sortEntries (keptEntries ignore dirPath cs)) := by
  constructor
  · rw [walkChildren, if_neg (by decide : ¬ (some 1 : Option Nat) = some 0)]
    exact (renderSorted_depth_one ignore dirPath pfx _).1
  · rw [walkLines, if_neg (by decide : ¬ (some 1 : Option Nat) = some 0)]
    exact (renderSorted_depth_one ignore dirPath pfx _).2

/-- Size-bounded joint induction: the walker's rendered string is exactly the
concatenation of its line view, for both functions of the mutual pair. -/
theorem walk_join_aux : ∀ n : Nat,
    (∀ (ignore : List GlobPat) (dirPath : List String) (pfx : String) (depth : Option Nat)
        (cs : List (String × FSNode)), 2 * sizeOf cs + 1 ≤ n →
      walkChildren ignore dirPath pfx depth cs
        = concatStrs (walkLines ignore dirPath pfx depth cs))
    ∧ (∀ (ignore : List GlobPat) (dirPath : List String) (pfx : String) (depth : Option Nat)
        (l : List (String × FSNode)), 2 * sizeOf l ≤ n →
      renderSorted ignore dirPath pfx depth l
        = concatStrs (renderSortedLines ignore dirPath pfx depth l)) := by
  intro n
  induction n using Nat.strong_induction_on with
  | _ n ih =>
    constructor
    · intro ignore dirPath pfx depth cs hle
      rw [walkChildren, walkLines]
      by_cases hd : depth = some 0
      · rw [if_pos hd, if_pos hd]; rfl
      · rw [if_neg hd, if_neg hd]
        have hs : 2 * sizeOf (sortEntries (keptEntries ignore dirPath cs)) < n := by
          have h1 := sizeOf_sortEntries (keptEntries ignore dirPath cs)
          have h2 := sizeOf_keptEntries_le ignore dirPath cs
          omega
        exact (ih _ hs).2 ignore dirPath pfx depth _ (le_refl _)
    · intro ignore dirPath pfx depth l hle
      cases l with
      | nil => rw [renderSorted, renderSortedLines]; rfl
      | cons e rest =>
        obtain ⟨name, node⟩ := e
        have hrest : 2 * sizeOf rest < n := by
          simp only [List.cons.sizeOf_spec] at hle
          omega
        cases node with
        | file c =>
          rw [renderSorted, renderSortedLines,
            (ih _ hrest).2 ignore dirPath pfx depth rest (le_refl _)]
          rfl
        | broken =>
          rw [renderSorted, renderSortedLines,
            (ih _ hrest).2 ignore dirPath pfx depth rest (le_refl _)]
          rfl
        | dir subcs =>
          have hsub : 2 * sizeOf subcs + 1 < n := by
            simp only [List.cons.sizeOf_spec, Prod.mk.sizeOf_spec,
              FSNode.dir.sizeOf_spec] at hle
            omega
          rw [renderSorted, renderSortedLines]
          by_cases hc : depth.getD usizeMax > 0
          · rw [if_pos hc, if_pos hc]
            rw [(ih _ hsub).1 ignore (dirPath ++ [name]) _ _ subcs (le_refl _)]
            rw [(ih _ hrest).2 ignore dirPath pfx depth rest (le_refl _)]
            rw [concatStrs_cons, concatStrs_append, String.append_assoc]
          · rw [if_neg hc, if_neg hc]
            rw [(ih _ hrest).2 ignore dirPath pfx depth rest (le_refl _)]
            rw [strAppend_empty, concatStrs_cons, List.nil_append]

/-- Size-bounded joint induction: every line the walker emits under a prefix
starts with that prefix. -/
theorem walkLines_prefixed_aux : ∀ n : Nat,
    (∀ (ignore : List GlobPat) (dirPath : List String) (pfx : String) (depth : Option Nat)
        (cs : List (String × FSNode)), 2 * sizeOf cs + 1 ≤ n →
      ∀ line ∈ walkLines ignore dirPath pfx depth cs, ∃ t, line = pfx ++ t)
    ∧ (∀ (ignore : List GlobPat) (dirPath : List String) (pfx : String) (depth : Option Nat)
        (l : List (String × FSNode)), 2 * sizeOf l ≤ n →
      ∀ line ∈ renderSortedLines ignore dirPath pfx depth l, ∃ t, line = pfx ++ t) := by
  intro n
  induction n using Nat.strong_induction_on with
  | _ n ih =>
    constructor
    · intro ignore dirPath pfx depth cs hle line hmem
      rw [walkLines] at hmem
      by_cases hd : depth = some 0
      · rw [if_pos hd] at hmem; simp at hmem
      · rw [if_neg hd] at hmem
        have hs : 2 * sizeOf (sortEntries (keptEntries ignore dirPath cs)) < n := by
          have h1 := sizeOf_sortEntries (keptEntries ignore dirPath cs)
          have h2 := sizeOf_keptEntries_le ignore dirPath cs
          omega
        exact (ih _ hs).2 ignore dirPath pfx depth _ (le_refl _) line hmem
    · intro ignore dirPath pfx depth l hle line hmem
      cases l with
      | nil => rw [renderSortedLines] at hmem; simp at hmem
      | cons e rest =>
        obtain ⟨name, node⟩ := e
        have hrest : 2 * sizeOf rest < n := by
          simp only [List.cons.sizeOf_spec] at hle
          omega
        cases node with
        | file c =>
          rw [renderSortedLines] at hmem
          rcases List.mem_cons.mp hmem with h | h
          · exact ⟨_, by rw [h, String.append_assoc, String.append_assoc]⟩
          · exact (ih _ hrest).2 ignore dirPath pfx depth rest (le_refl _) line h
        | broken =>
          rw [renderSortedLines] at hmem
          rcases List.mem_cons.mp hmem with h | h
          · exact ⟨_, by rw [h, String.append_assoc, String.append_assoc]⟩
          · exact (ih _ hrest).2 ignore dirPath pfx depth rest (le_refl _) line h
        | dir subcs =>
          have hsub : 2 * sizeOf subcs + 1 < n := by
            simp only [List.cons.sizeOf_spec, Prod.mk.sizeOf_spec,
              FSNode.dir.sizeOf_spec] at hle
            omega
          rw [renderSortedLines] at hmem
          rcases List.mem_cons.mp hmem with h | h
          · exact ⟨_, by rw [h, String.append_assoc, String.append_assoc]⟩
          · rcases List.mem_append.mp h with h2 | h2
            · by_cases hc : depth.getD usizeMax > 0
              · rw [if_pos hc] at h2
                obtain ⟨t, ht⟩ := (ih _ hsub).1 ignore (dirPath ++ [name])
                  (pfx ++ (if rest.isEmpty then "    " else "│   "))
                  (depth.map (fun d => d - 1)) subcs (le_refl _) line h2
                exact ⟨_, by rw [ht, String.append_assoc]⟩
              · rw [if_neg hc] at h2
                simp at h2
            · exact (ih _ hrest).2 ignore dirPath pfx depth rest (le_refl _) line h2

/-- C8: entries are rendered in strictly increasing name order at every
directory level (the same walker runs at every level, so the statement is
universally quantified over a level's children), the rendered text is the
concatenation of its emitted lines, every emitted line starts with the prefix
the level was invoked with, and a directory child's block is nested under
exactly the one connector prefix determined by its position — `"    "` after
a last entry, `"│   "` otherwise. -/
theorem C8_sorted_levels_and_prefixes (ignore : List GlobPat) (dirPath : List String)
    (pfx : String) (depth : Option Nat) (cs : List (String × FSNode))
    (hnd : (cs.map Prod.fst).Nodup) :
    List.Pairwise (fun a b => a < b)
      ((sortEntries (keptEntries ignore dirPath cs)).map Prod.fst)
    ∧ walkChildren ignore dirPath pfx depth cs
        = concatStrs (walkLines ignore dirPath pfx depth cs)
    ∧ (∀ line ∈ walkLines ignore dirPath pfx depth cs, ∃ t, line = pfx ++ t)
    ∧ (∀ (file_name : String) (subcs rest : List (String × FSNode)),
        renderSortedLines ignore dirPath pfx depth ((file_name, FSNode.dir subcs) :: rest)
          = ((pfx ++ (if rest.isEmpty then "└── " else "├── ")) ++ file_name ++ "\n")
            :: ((if depth.getD usizeMax > 0 then
                  walkLines ignore (dirPath ++ [file_name])
                    (pfx ++ (if rest.isEmpty then "    " else "│   "))
                    (depth.map (fun d => d - 1)) subcs
                else []) ++ renderSortedLines ignore dirPath pfx depth rest)) := by
  refine ⟨?_, ?_, ?_, ?_⟩
  · have hsorted := List.sorted_insertionSort entryLe (keptEntries ignore dirPath cs)
    have hperm := List.perm_insertionSort entryLe (keptEntries ignore dirPath cs)
    have hsub : List.Sublist (keptEntries ignore dirPath cs) cs := List.filter_sublist cs
    have hnd2 : ((keptEntries ignore dirPath cs).map Prod.fst).Nodup :=
      hnd.sublist (List.Sublist.map Prod.fst hsub)
    have hnd3 : ((sortEntries (keptEntries ignore dirPath cs)).map Prod.fst).Nodup :=
      ((hperm.map Prod.fst).nodup_iff).mpr hnd2
    have hle : ((sortEntries (keptEntries ignore dirPath cs)).map Prod.fst).Sorted
        (fun a b => a ≤ b) :=
      List.pairwise_map.mpr (hsorted.imp (fun h => h))
    exact List.Sorted.lt_of_le hle hnd3
  · exact (walk_join_aux (2 * sizeOf cs + 1)).1 ignore dirPath pfx depth cs (le_refl _)
  · exact (walkLines_prefixed_aux (2 * sizeOf cs + 1)).1 ignore dirPath pfx depth cs (le_refl _)
  · intro file_name subcs rest
    rw [renderSortedLines]

/-- Witness for C8 at a two-file directory listed in anti-alphabetical order:
the level's names come out strictly sorted. -/
theorem C8_sorted_levels_and_prefixes_witness :
    (csTwo.map Prod.fst).Nodup
    ∧ List.Pairwise (fun a b => a < b)
        ((sortEntries (keptEntries [] [] csTwo)).map Prod.fst) :=
  ⟨by decide, (C8_sorted_levels_and_prefixes [] [] "" none csTwo (by decide)).1⟩

end Nishiogi
